/-
Verification of the geometry core of the GPS field-area repository.

The definitions below are a shallow embedding of the source files:
  * the area utilities module (calculateShoelaceArea, haversineDistance,
    calculateHaversineArea, calculateConvexHull, isLeftTurn,
    calculateConvexHullArea, calculateDelaunayArea,
    getAreaCalculationFunction);
  * the ESP32 firmware (isValidCoordinate, calculateDistance);
  * the spec's UnitConverter (only its display-path caller toggleAreaUnit
    exists under src, so the pure conversions are modelled from the spec).

JavaScript / C++ double values are modelled as real numbers.  Math.sqrt is
modelled by fsqrt, which returns none on a negative argument: none stands
for NaN, and Option-bind models NaN propagation through the haversine
computation.  Array.prototype.sort with a comparator is modelled as a
stable insertion sort (ECMAScript mandates a stable sort, and for the
consistent comparator used here every stable sort yields the same list).
The loop index pattern j = (i + 1) % n is modelled by zipping a list with
its rotation by one, which pairs each element with its cyclic successor.
-/
import Mathlib

open Classical

namespace GpsArea

noncomputable section

/-- A GPS point: latitude and longitude in decimal degrees. -/
structure Point where
  lat : ℝ
  lon : ℝ

instance : Inhabited Point := ⟨⟨0, 0⟩⟩

/-- One term of the shoelace accumulation:
latI * lonJ - latJ * lonI for consecutive points. -/
def crossTerm (p q : Point) : ℝ := p.lat * q.lon - q.lat * p.lon

/-- The signed shoelace sum over all edges, with implicit ring closure:
zipping the list with its rotation by one pairs index i with (i + 1) % n. -/
def shoelaceSum (coordinates : List Point) : ℝ :=
  ((coordinates.zip (coordinates.rotate 1)).map fun pq => crossTerm pq.1 pq.2).sum

/-- calculateShoelaceArea from the area utilities: guard for fewer than 3
points, absolute value of the signed sum halved, then the fixed conversion
to square kilometres (111.32 squared) and to hectares (times 100). -/
def calculateShoelaceArea (coordinates : List Point) : ℝ :=
  if coordinates.length < 3 then 0
  else |shoelaceSum coordinates| / 2 * 111.32 * 111.32 * 100

/-- The open-path part of the shoelace sum: the cross terms of consecutive
pairs, without the closing edge.  Used to reason about shoelaceSum. -/
def pathSum : List Point → ℝ
  | [] => 0
  | [_] => 0
  | p :: q :: r => crossTerm p q + pathSum (q :: r)

/-- Math.sqrt: NaN (modelled as none) on a negative argument. -/
def fsqrt (x : ℝ) : Option ℝ := if 0 ≤ x then some (Real.sqrt x) else none

/-- Math.atan2 on finite arguments. -/
def atan2 (y x : ℝ) : ℝ :=
  if 0 < x then Real.arctan (y / x)
  else if x < 0 then
    if 0 ≤ y then Real.arctan (y / x) + Real.pi else Real.arctan (y / x) - Real.pi
  else
    if 0 < y then Real.pi / 2 else if y < 0 then -(Real.pi / 2) else 0

/-- The intermediate value a of haversineDistance (local const a in the
source): sin²(dLat/2) + cos(lat1·π/180) · cos(lat2·π/180) · sin²(dLon/2). -/
def havA (lat1 lon1 lat2 lon2 : ℝ) : ℝ :=
  let dLat := (lat2 - lat1) * Real.pi / 180
  let dLon := (lon2 - lon1) * Real.pi / 180
  Real.sin (dLat / 2) * Real.sin (dLat / 2) +
    Real.cos (lat1 * Real.pi / 180) * Real.cos (lat2 * Real.pi / 180) *
      Real.sin (dLon / 2) * Real.sin (dLon / 2)

/-- haversineDistance from the area utilities: Earth radius 6371 km,
c = 2 · atan2(√a, √(1−a)), distance R · c.  A NaN from either square root
propagates through atan2 and the product, hence the Option bind. -/
def haversineDistance (lat1 lon1 lat2 lon2 : ℝ) : Option ℝ :=
  (fsqrt (havA lat1 lon1 lat2 lon2)).bind fun sa =>
    (fsqrt (1 - havA lat1 lon1 lat2 lon2)).bind fun sb =>
      some (6371 * (2 * atan2 sa sb))

/-- The Heron radicand s(s−a)(s−b)(s−c) with s the semiperimeter. -/
def heronRadicand (a b c : ℝ) : ℝ :=
  let s := (a + b + c) / 2
  s * (s - a) * (s - b) * (s - c)

/-- One triangle of the haversine-centroid fan: the three haversine side
lengths, then Math.sqrt(Math.max(0, heron radicand)).  The max with 0 is
the clamp of the source; a NaN side length propagates. -/
def triangleAreaTerm (centroid p q : Point) : Option ℝ :=
  (haversineDistance centroid.lat centroid.lon p.lat p.lon).bind fun a =>
    (haversineDistance centroid.lat centroid.lon q.lat q.lon).bind fun b =>
      (haversineDistance p.lat p.lon q.lat q.lon).bind fun c =>
        fsqrt (max 0 (heronRadicand a b c))

/-- Addition on possibly-NaN values: NaN absorbs. -/
def optAdd (x y : Option ℝ) : Option ℝ := x.bind fun a => y.map fun b => a + b

/-- calculateHaversineArea from the area utilities: guard for fewer than 3
points, arithmetic centroid, a triangle per boundary edge, sum of the
triangle areas, times 100 for hectares. -/
def calculateHaversineArea (coordinates : List Point) : Option ℝ :=
  if coordinates.length < 3 then some 0
  else
    let centroid : Point :=
      ⟨(coordinates.map Point.lat).sum / coordinates.length,
       (coordinates.map Point.lon).sum / coordinates.length⟩
    (((coordinates.zip (coordinates.rotate 1)).map fun pq =>
        triangleAreaTerm centroid pq.1 pq.2).foldl optAdd (some 0)).map
      fun a => a * 100

/-- isLeftTurn from the area utilities:
(p2.lon − p1.lon)(p3.lat − p1.lat) − (p2.lat − p1.lat)(p3.lon − p1.lon) > 0. -/
def isLeftTurn (p1 p2 p3 : Point) : Prop :=
  (p2.lon - p1.lon) * (p3.lat - p1.lat) - (p2.lat - p1.lat) * (p3.lon - p1.lon) > 0

/-- One step of the anchor search: keep the point with the lower lat,
ties broken by lower lon. -/
def lowerPoint (low p : Point) : Point :=
  if p.lat < low.lat ∨ (p.lat = low.lat ∧ p.lon < low.lon) then p else low

/-- The sort comparator of calculateConvexHull: the anchor sorts first,
then ascending polar angle atan2(Δlat, Δlon) from the anchor, angle ties
broken by ascending Euclidean distance from the anchor. -/
def hullCmp (lowestPoint a b : Point) : ℝ :=
  if a = lowestPoint then -1
  else if b = lowestPoint then 1
  else
    let angleA := atan2 (a.lat - lowestPoint.lat) (a.lon - lowestPoint.lon)
    let angleB := atan2 (b.lat - lowestPoint.lat) (b.lon - lowestPoint.lon)
    if angleA = angleB then
      Real.sqrt ((a.lat - lowestPoint.lat) ^ 2 + (a.lon - lowestPoint.lon) ^ 2) -
        Real.sqrt ((b.lat - lowestPoint.lat) ^ 2 + (b.lon - lowestPoint.lon) ^ 2)
    else angleA - angleB

/-- Stable insertion of x into a sorted list: x goes before the first
element it does not compare strictly greater than. -/
def insertSorted (cmp : Point → Point → ℝ) (x : Point) : List Point → List Point
  | [] => [x]
  | h :: t => if cmp x h > 0 then h :: insertSorted cmp x t else x :: h :: t

/-- Array.prototype.sort with a comparator, as a stable insertion sort. -/
def sortJS (cmp : Point → Point → ℝ) (l : List Point) : List Point :=
  l.foldr (insertSorted cmp) []

/-- The pop loop of the Graham scan, on the hull kept in reversed order
(most recent point first): while the hull holds at least two points and
the last two points with the candidate do not form a left turn, pop. -/
def scanPop (p : Point) : List Point → List Point
  | p1 :: p2 :: rest => if ¬ isLeftTurn p2 p1 p then scanPop p (p2 :: rest) else p1 :: p2 :: rest
  | l => l

/-- calculateConvexHull from the area utilities (Graham scan): boundaries
of at most 3 points are returned unchanged; otherwise anchor search, sort
by the comparator, scan.  The hull accumulates in reversed order and is
reversed back at the end; the match arms for fewer than two sorted points
are unreachable because the sorted list keeps the input length (> 3). -/
def calculateConvexHull (coordinates : List Point) : List Point :=
  if coordinates.length ≤ 3 then coordinates
  else
    match coordinates with
    | [] => []
    | c0 :: rest =>
      let lowestPoint := rest.foldl lowerPoint c0
      let sortedPoints := sortJS (hullCmp lowestPoint) coordinates
      match sortedPoints with
      | p0 :: p1 :: rest2 =>
        (rest2.foldl (fun hull p => p :: scanPop p hull) [p1, p0]).reverse
      | l => l

/-- calculateConvexHullArea: shoelace area of the convex hull. -/
def calculateConvexHullArea (coordinates : List Point) : ℝ :=
  calculateShoelaceArea (calculateConvexHull coordinates)

/-- calculateDelaunayArea from the area utilities: guard for fewer than 3
points; the convex hull; the interior points (kept although both branches
of the final conditional return the hull area); the shoelace area of the
hull in either branch. -/
def calculateDelaunayArea (coordinates : List Point) : ℝ :=
  if coordinates.length < 3 then 0
  else
    let hull := calculateConvexHull coordinates
    let interiorPoints := coordinates.filter fun point =>
      decide (¬ hull.any fun hullPoint =>
        decide (hullPoint.lat = point.lat) && decide (hullPoint.lon = point.lon))
    let totalArea := calculateShoelaceArea hull
    if interiorPoints.length = 0 then totalArea else totalArea

/-- getAreaCalculationFunction: dispatch by algorithm name; the shoelace
case and the default case of the source both return the shoelace function.
The always-defined algorithms are lifted into the possibly-NaN type. -/
def getAreaCalculationFunction (algorithm : String) : List Point → Option ℝ :=
  match algorithm with
  | "haversine" => calculateHaversineArea
  | "convexHull" => fun coords => some (calculateConvexHullArea coords)
  | "delaunay" => fun coords => some (calculateDelaunayArea coords)
  | _ => fun coords => some (calculateShoelaceArea coords)

/-- The mutable filter state of the ESP32 firmware:
isFirstValidCoordinate, lastLat, lastLon. -/
structure FilterState where
  isFirstValidCoordinate : Bool
  lastLat : ℝ
  lastLon : ℝ

/-- calculateDistance from the firmware: planar Euclidean distance in
degree space, sqrt(Δlat² + Δlon²). -/
def calculateDistance (lat1 lon1 lat2 lon2 : ℝ) : ℝ :=
  Real.sqrt ((lat2 - lat1) ^ 2 + (lon2 - lon1) ^ 2)

/-- MIN_DISTANCE_CHANGE from the firmware. -/
def MIN_DISTANCE_CHANGE : ℝ := 0.00001

/-- isValidCoordinate from the firmware, with the globals made an explicit
state: origin-sentinel rejection, unconditional first-point acceptance,
minimum-movement rejection, otherwise acceptance with state update. -/
def isValidCoordinate (st : FilterState) (lat lon : ℝ) : Bool × FilterState :=
  if |lat| < 0.0001 ∧ |lon| < 0.0001 then (false, st)
  else if st.isFirstValidCoordinate then (true, ⟨false, lat, lon⟩)
  else if calculateDistance st.lastLat st.lastLon lat lon < MIN_DISTANCE_CHANGE then
    (false, st)
  else (true, { st with lastLat := lat, lastLon := lon })

/-- Modelled from the spec: the UnitConverter component, section 4.4 of the
spec.  The repository files under src contain only the display-path caller
toggleAreaUnit (app/page.tsx), which applies the factor 2.47105 in one
direction and 1 / 2.47105 in the other and then rounds for display; the
pure conversion functions themselves are not present under src.
to_acres(hectares) = hectares * 2.47105. -/
def to_acres (hectares : ℝ) : ℝ := hectares * 2.47105

/-- Modelled from the spec: the UnitConverter component, section 4.4 of the
spec (see to_acres).  to_hectares(acres) = acres / 2.47105. -/
def to_hectares (acres : ℝ) : ℝ := acres / 2.47105

end

/-- C1: every boundary with fewer than 3 points yields area exactly 0 from
each of the four algorithms (the haversine algorithm, whose result type
tracks possible NaN, yields the defined value 0). -/
theorem area_zero_below_three_points (coords : List Point) (h : coords.length < 3) :
    calculateShoelaceArea coords = 0 ∧
    calculateHaversineArea coords = some 0 ∧
    calculateConvexHullArea coords = 0 ∧
    calculateDelaunayArea coords = 0 := by
  have h3 : coords.length ≤ 3 := by omega
  refine ⟨?_, ?_, ?_, ?_⟩
  · unfold calculateShoelaceArea
    rw [if_pos h]
  · unfold calculateHaversineArea
    rw [if_pos h]
  · unfold calculateConvexHullArea calculateConvexHull
    rw [if_pos h3]
    unfold calculateShoelaceArea
    rw [if_pos h]
  · unfold calculateDelaunayArea
    rw [if_pos h]

/-- C1 witness: the empty boundary. -/
theorem area_zero_below_three_points_witness :
    calculateShoelaceArea [] = 0 ∧
    calculateHaversineArea [] = some 0 ∧
    calculateConvexHullArea [] = 0 ∧
    calculateDelaunayArea [] = 0 :=
  area_zero_below_three_points [] (by decide)

/-- C4: on every boundary the delaunay (hull-fallback) algorithm returns
exactly the convex-hull algorithm value: it never triangulates interior
points, both branches of its final conditional return the hull area, and
below 3 points both algorithms return 0. -/
theorem delaunay_eq_convex_hull_area (coords : List Point) :
    calculateDelaunayArea coords = calculateConvexHullArea coords := by
  by_cases h : coords.length < 3
  · have h3 : coords.length ≤ 3 := by omega
    unfold calculateDelaunayArea calculateConvexHullArea calculateConvexHull
    rw [if_pos h, if_pos h3]
    unfold calculateShoelaceArea
    rw [if_pos h]
  · unfold calculateDelaunayArea calculateConvexHullArea
    rw [if_neg h, ite_self]

/-- C5: a candidate inside the origin sentinel (both coordinates below
1e-4 in absolute value) is rejected whatever the filter state, and the
state is returned unchanged. -/
theorem origin_sentinel_rejected (st : FilterState) (lat lon : ℝ)
    (h1 : |lat| < 1e-4) (h2 : |lon| < 1e-4) :
    isValidCoordinate st lat lon = (false, st) := by
  have e : (1e-4 : ℝ) = 0.0001 := by norm_num
  unfold isValidCoordinate
  rw [if_pos ⟨e ▸ h1, e ▸ h2⟩]

/-- C5 witness: (0.00005, -0.00003) is rejected even by a fresh state whose
first-point flag is still set. -/
theorem origin_sentinel_rejected_witness :
    isValidCoordinate ⟨true, 0, 0⟩ 0.00005 (-0.00003) = (false, ⟨true, 0, 0⟩) :=
  origin_sentinel_rejected ⟨true, 0, 0⟩ 0.00005 (-0.00003)
    (abs_lt.mpr ⟨by norm_num, by norm_num⟩)
    (abs_lt.mpr ⟨by norm_num, by norm_num⟩)

/-- C6: a non-sentinel candidate arriving after the first acceptance is
rejected, with the state unchanged, exactly when its planar degree-space
distance from the last accepted point is below 1e-5; otherwise it is
accepted and becomes the last accepted point. -/
theorem minimum_movement_filter (st : FilterState) (lat lon : ℝ)
    (hsent : ¬ (|lat| < 1e-4 ∧ |lon| < 1e-4))
    (hfirst : st.isFirstValidCoordinate = false) :
    (calculateDistance st.lastLat st.lastLon lat lon < 1e-5 →
      isValidCoordinate st lat lon = (false, st)) ∧
    (1e-5 ≤ calculateDistance st.lastLat st.lastLon lat lon →
      isValidCoordinate st lat lon = (true, { st with lastLat := lat, lastLon := lon })) := by
  have e4 : (1e-4 : ℝ) = 0.0001 := by norm_num
  have e5 : MIN_DISTANCE_CHANGE = 1e-5 := by unfold MIN_DISTANCE_CHANGE; norm_num
  constructor
  · intro hlt
    unfold isValidCoordinate
    rw [if_neg (e4 ▸ hsent), if_neg (by rw [hfirst]; exact Bool.false_ne_true),
      if_pos (e5 ▸ hlt)]
  · intro hge
    unfold isValidCoordinate
    rw [if_neg (e4 ▸ hsent), if_neg (by rw [hfirst]; exact Bool.false_ne_true),
      if_neg (by rw [e5]; exact not_lt.mpr hge)]

/-- C6 witness: after accepting (10.000005, 20.000003) the candidate
(10, 20) is rejected (distance about 5.83e-6) and the candidate
(10.01, 20.01) is accepted. -/
theorem minimum_movement_filter_witness :
    isValidCoordinate ⟨false, 10.000005, 20.000003⟩ 10 20 =
      (false, ⟨false, 10.000005, 20.000003⟩) ∧
    isValidCoordinate ⟨false, 10.000005, 20.000003⟩ 10.01 20.01 =
      (true, ⟨false, 10.01, 20.01⟩) := by
  constructor
  · exact (minimum_movement_filter ⟨false, 10.000005, 20.000003⟩ 10 20
      (by intro hc; exact absurd (abs_lt.mp hc.1).2 (by norm_num)) rfl).1
      (by unfold calculateDistance
          rw [Real.sqrt_lt' (by norm_num)]
          norm_num)
  · exact (minimum_movement_filter ⟨false, 10.000005, 20.000003⟩ 10.01 20.01
      (by intro hc; exact absurd (abs_lt.mp hc.1).2 (by norm_num)) rfl).2
      (by unfold calculateDistance
          rw [Real.le_sqrt (by norm_num) (by positivity)]
          norm_num)

/-- C9: the hectares-to-acres and acres-to-hectares conversions are exact
mutual inverses on every real input, hence each round trip returns the
input within relative tolerance 1e-9. -/
theorem unit_conversion_roundtrip (x : ℝ) :
    to_acres (to_hectares x) = x ∧ to_hectares (to_acres x) = x ∧
    |to_acres (to_hectares x) - x| ≤ 1e-9 * |x| ∧
    |to_hectares (to_acres x) - x| ≤ 1e-9 * |x| := by
  have h1 : to_acres (to_hectares x) = x := by
    unfold to_acres to_hectares
    field_simp
  have h2 : to_hectares (to_acres x) = x := by
    unfold to_acres to_hectares
    field_simp
  refine ⟨h1, h2, ?_, ?_⟩ <;>
    simp only [h1, h2, sub_self, abs_zero] <;> positivity

/-- C10: every algorithm name other than haversine, convexHull and
delaunay, the empty string and unknown names included, dispatches to the
shoelace area function. -/
theorem dispatcher_defaults_to_shoelace (s : String)
    (h1 : s ≠ "haversine") (h2 : s ≠ "convexHull") (h3 : s ≠ "delaunay") :
    getAreaCalculationFunction s = fun coords => some (calculateShoelaceArea coords) := by
  unfold getAreaCalculationFunction
  split <;> simp_all

/-- C10 witness: the empty string dispatches to the shoelace function. -/
theorem dispatcher_defaults_to_shoelace_witness :
    getAreaCalculationFunction "" = fun coords => some (calculateShoelaceArea coords) :=
  dispatcher_defaults_to_shoelace "" (by decide) (by decide) (by decide)

/-- The haversine intermediate value a lies in [0, 1] for all real inputs,
so neither square root of haversineDistance sees a negative argument. -/
lemma havA_mem_unit (lat1 lon1 lat2 lon2 : ℝ) :
    0 ≤ havA lat1 lon1 lat2 lon2 ∧ havA lat1 lon1 lat2 lon2 ≤ 1 := by
  simp only [havA]
  have ep : (lat2 - lat1) * Real.pi / 180 / 2 =
      ((lat2 * Real.pi / 180) - (lat1 * Real.pi / 180)) / 2 := by ring
  rw [ep]
  set p := lat1 * Real.pi / 180 with hp
  set q := lat2 * Real.pi / 180 with hq
  set u := (lon2 - lon1) * Real.pi / 180 / 2 with hu
  have h1 : Real.sin ((q - p) / 2) * Real.sin ((q - p) / 2) =
      1 / 2 - Real.cos (q - p) / 2 := by
    have := Real.sin_sq_eq_half_sub ((q - p) / 2)
    rw [show 2 * ((q - p) / 2) = q - p from by ring] at this
    nlinarith [this]
  have h2 : Real.sin u * Real.sin u = 1 / 2 - Real.cos (2 * u) / 2 := by
    have := Real.sin_sq_eq_half_sub u
    nlinarith [this]
  rw [h1]
  have hsub : Real.cos (q - p) = Real.cos q * Real.cos p + Real.sin q * Real.sin p :=
    Real.cos_sub q p
  have hsp := Real.sin_sq_add_cos_sq p
  have hsq := Real.sin_sq_add_cos_sq q
  have hT1 : -1 ≤ Real.cos (2 * u) := Real.neg_one_le_cos (2 * u)
  have hT2 : Real.cos (2 * u) ≤ 1 := Real.cos_le_one (2 * u)
  constructor
  · nlinarith [sq_nonneg (Real.sin p - Real.sin q),
      mul_nonneg (by linarith : (0:ℝ) ≤ 1 + Real.cos (2 * u))
        (sq_nonneg (Real.cos p - Real.cos q)),
      mul_nonneg (by linarith : (0:ℝ) ≤ 1 - Real.cos (2 * u))
        (sq_nonneg (Real.cos p + Real.cos q))]
  · nlinarith [sq_nonneg (Real.sin p + Real.sin q),
      mul_nonneg (by linarith : (0:ℝ) ≤ 1 + Real.cos (2 * u))
        (sq_nonneg (Real.cos p + Real.cos q)),
      mul_nonneg (by linarith : (0:ℝ) ≤ 1 - Real.cos (2 * u))
        (sq_nonneg (Real.cos p - Real.cos q))]

/-- haversineDistance is always a defined value: no NaN arises from its
two square roots. -/
lemma haversineDistance_isSome (lat1 lon1 lat2 lon2 : ℝ) :
    ∃ d, haversineDistance lat1 lon1 lat2 lon2 = some d := by
  obtain ⟨h0, h1⟩ := havA_mem_unit lat1 lon1 lat2 lon2
  unfold haversineDistance fsqrt
  rw [if_pos h0, if_pos (by linarith : (0:ℝ) ≤ 1 - havA lat1 lon1 lat2 lon2)]
  exact ⟨_, rfl⟩

/-- Each triangle of the haversine fan contributes a defined, nonnegative
value: the sides are defined and the clamped radicand is nonnegative. -/
lemma triangleAreaTerm_isSome_nonneg (centroid p q : Point) :
    ∃ v, triangleAreaTerm centroid p q = some v ∧ 0 ≤ v := by
  obtain ⟨a, ha⟩ := haversineDistance_isSome centroid.lat centroid.lon p.lat p.lon
  obtain ⟨b, hb⟩ := haversineDistance_isSome centroid.lat centroid.lon q.lat q.lon
  obtain ⟨c, hc⟩ := haversineDistance_isSome p.lat p.lon q.lat q.lon
  unfold triangleAreaTerm
  rw [ha, hb, hc]
  simp only [Option.some_bind]
  unfold fsqrt
  rw [if_pos (le_max_left 0 (heronRadicand a b c))]
  exact ⟨_, rfl, Real.sqrt_nonneg _⟩

/-- Folding optAdd over defined nonnegative terms from a nonnegative
accumulator stays defined and nonnegative. -/
lemma foldl_optAdd_isSome_nonneg :
    ∀ (l : List (Option ℝ)), (∀ t ∈ l, ∃ v, t = some v ∧ 0 ≤ v) →
    ∀ acc : ℝ, 0 ≤ acc → ∃ w, l.foldl optAdd (some acc) = some w ∧ 0 ≤ w := by
  intro l
  induction l with
  | nil => exact fun _ acc hacc => ⟨acc, rfl, hacc⟩
  | cons h t ih =>
    intro hall acc hacc
    obtain ⟨v, hv, hv0⟩ := hall h (List.mem_cons_self h t)
    have step : optAdd (some acc) h = some (acc + v) := by
      rw [hv]; unfold optAdd; rfl
    rw [List.foldl_cons, step]
    exact ih (fun t' ht' => hall t' (List.mem_cons_of_mem h ht')) (acc + v)
      (by linarith)

/-- C7: on every boundary with at least 3 points the haversine-centroid
algorithm returns a defined (never NaN) nonnegative area, because each
Heron radicand is clamped to a minimum of 0 before the square root; a
nonpositive radicand contributes exactly 0 rather than NaN. -/
theorem haversine_clamped_never_nan (coords : List Point) (h : 3 ≤ coords.length) :
    (∃ v, calculateHaversineArea coords = some v ∧ 0 ≤ v) ∧
    (∀ a b c : ℝ, heronRadicand a b c ≤ 0 →
      fsqrt (max 0 (heronRadicand a b c)) = some 0) := by
  constructor
  · have hnot : ¬ coords.length < 3 := by omega
    simp only [calculateHaversineArea, if_neg hnot]
    obtain ⟨w, hw, hw0⟩ := foldl_optAdd_isSome_nonneg
      (((coords.zip (coords.rotate 1)).map fun pq =>
        triangleAreaTerm
          ⟨(coords.map Point.lat).sum / coords.length,
           (coords.map Point.lon).sum / coords.length⟩ pq.1 pq.2))
      (by
        intro t ht
        obtain ⟨pq, _, hpq⟩ := List.mem_map.mp ht
        exact hpq ▸ triangleAreaTerm_isSome_nonneg _ _ _)
      0 le_rfl
    rw [hw]
    exact ⟨w * 100, rfl, by nlinarith⟩
  · intro a b c hr
    rw [max_eq_left hr]
    unfold fsqrt
    rw [if_pos le_rfl, Real.sqrt_zero]

/-- C7 witness: a concrete 3-point boundary. -/
theorem haversine_clamped_never_nan_witness :
    (∃ v, calculateHaversineArea [⟨0, 0⟩, ⟨1, 0⟩, ⟨0, 1⟩] = some v ∧ 0 ≤ v) ∧
    (∀ a b c : ℝ, heronRadicand a b c ≤ 0 →
      fsqrt (max 0 (heronRadicand a b c)) = some 0) :=
  haversine_clamped_never_nan [⟨0, 0⟩, ⟨1, 0⟩, ⟨0, 1⟩] (by decide)

lemma crossTerm_self (p : Point) : crossTerm p p = 0 := by unfold crossTerm; ring

lemma crossTerm_antisymm (p q : Point) : crossTerm p q = -crossTerm q p := by
  unfold crossTerm; ring

lemma getLastD_concat : ∀ (l : List Point) (x d : Point), (l ++ [x]).getLastD d = x := by
  intro l
  induction l with
  | nil => intro x d; rfl
  | cons c t ih =>
    intro x d
    rw [List.cons_append, List.getLastD_cons]
    exact ih x c

/-- For a nonempty list the head of the reversal is the last element. -/
lemma headI_reverse : ∀ (l : List Point) (d : Point), l ≠ [] →
    l.reverse.headI = l.getLastD d := by
  intro l
  induction l with
  | nil => intro d h; exact absurd rfl h
  | cons a t ih =>
    intro d _
    rw [List.getLastD_cons]
    by_cases ht : t = []
    · subst ht; rfl
    · obtain ⟨c, w, e⟩ := List.exists_cons_of_ne_nil
        (fun hn => ht (List.reverse_eq_nil_iff.mp hn))
      rw [List.reverse_cons, e, List.cons_append]
      have := ih a ht
      rw [e] at this
      exact this

lemma getLastD_reverse (x : Point) (s : List Point) (d : Point) :
    ((x :: s).reverse).getLastD d = x := by
  rw [List.reverse_cons]
  exact getLastD_concat s.reverse x d

lemma pathSum_concat : ∀ (u : List Point) (c x : Point),
    pathSum (c :: (u ++ [x])) = pathSum (c :: u) + crossTerm (u.getLastD c) x := by
  intro u
  induction u with
  | nil => intro c x; simp [pathSum]
  | cons d v ih =>
    intro c x
    rw [List.cons_append, show pathSum (c :: d :: (v ++ [x])) =
        crossTerm c d + pathSum (d :: (v ++ [x])) from rfl, ih d x,
      show pathSum (c :: d :: v) = crossTerm c d + pathSum (d :: v) from rfl,
      List.getLastD_cons]
    ring

lemma pathSum_reverse : ∀ l : List Point, pathSum l.reverse = -pathSum l := by
  intro l
  induction l with
  | nil => simp [pathSum]
  | cons a t ih =>
    by_cases ht : t = []
    · subst ht; simp [pathSum]
    · obtain ⟨b, u, e⟩ := List.exists_cons_of_ne_nil ht
      obtain ⟨c, w, er⟩ := List.exists_cons_of_ne_nil
        (fun hn => ht (List.reverse_eq_nil_iff.mp hn))
      rw [List.reverse_cons, er, List.cons_append, pathSum_concat]
      have hwb : w.getLastD c = b := by
        have := getLastD_reverse b u c
        rw [← e, er, List.getLastD_cons] at this
        exact this
      rw [hwb, ← er, ih, e,
        show pathSum (a :: b :: u) = crossTerm a b + pathSum (b :: u) from rfl,
        crossTerm_antisymm b a]
      ring

lemma zipPath : ∀ (t : List Point) (b a : Point),
    (((b :: t).zip (t ++ [a])).map fun pq => crossTerm pq.1 pq.2).sum =
      pathSum (b :: t) + crossTerm (t.getLastD b) a := by
  intro t
  induction t with
  | nil => intro b a; simp [pathSum]
  | cons c u ih =>
    intro b a
    rw [List.cons_append, List.zip_cons_cons, List.map_cons, List.sum_cons, ih c a,
      show pathSum (b :: c :: u) = crossTerm b c + pathSum (c :: u) from rfl,
      List.getLastD_cons]
    ring

lemma shoelaceSum_cons (a : Point) (t : List Point) :
    shoelaceSum (a :: t) = pathSum (a :: t) + crossTerm (t.getLastD a) a := by
  unfold shoelaceSum
  rw [show (a :: t).rotate 1 = t ++ [a] from by
    rw [List.rotate_cons_succ, List.rotate_zero]]
  exact zipPath t a a

lemma shoelaceSum_rotate_one : ∀ l : List Point, shoelaceSum (l.rotate 1) = shoelaceSum l := by
  intro l
  match l with
  | [] => rfl
  | [a] =>
    rw [show ([a] : List Point).rotate 1 = [a] from by
      rw [List.rotate_cons_succ, List.rotate_zero, List.nil_append]]
  | a :: b :: u =>
    rw [show (a :: b :: u).rotate 1 = (b :: u) ++ [a] from by
      rw [List.rotate_cons_succ, List.rotate_zero]]
    rw [List.cons_append, shoelaceSum_cons b (u ++ [a]), pathSum_concat u b a,
      getLastD_concat, shoelaceSum_cons a (b :: u), List.getLastD_cons,
      show pathSum (a :: b :: u) = crossTerm a b + pathSum (b :: u) from rfl,
      crossTerm_antisymm a b]
    ring

lemma shoelaceSum_rotate (l : List Point) (k : ℕ) :
    shoelaceSum (l.rotate k) = shoelaceSum l := by
  induction k generalizing l with
  | zero => rw [List.rotate_zero]
  | succ n ih =>
    rw [show l.rotate (n + 1) = (l.rotate 1).rotate n from by
      rw [List.rotate_rotate, Nat.add_comm], ih (l.rotate 1), shoelaceSum_rotate_one l]

lemma shoelaceSum_reverse : ∀ l : List Point, shoelaceSum l.reverse = -shoelaceSum l := by
  intro l
  match l with
  | [] => simp [shoelaceSum]
  | [a] => simp [shoelaceSum_cons, pathSum, crossTerm_self]
  | a :: b :: u =>
    obtain ⟨c, w, er⟩ := List.exists_cons_of_ne_nil
      (fun hn => (List.cons_ne_nil b u) (List.reverse_eq_nil_iff.mp hn))
    rw [List.reverse_cons, er, List.cons_append, shoelaceSum_cons c (w ++ [a]),
      pathSum_concat w c a, getLastD_concat]
    have hwb : w.getLastD c = b := by
      have := getLastD_reverse b u c
      rw [er, List.getLastD_cons] at this
      exact this
    have hc : c = u.getLastD b := by
      have := headI_reverse (b :: u) b (List.cons_ne_nil b u)
      rw [er, List.getLastD_cons] at this
      simpa using this
    have hps : pathSum (c :: w) = -pathSum (b :: u) := by
      rw [← er, pathSum_reverse]
    rw [hwb, hps, hc, shoelaceSum_cons a (b :: u), List.getLastD_cons,
      show pathSum (a :: b :: u) = crossTerm a b + pathSum (b :: u) from rfl,
      crossTerm_antisymm b a, crossTerm_antisymm a (u.getLastD b)]
    ring

lemma shoelaceSum_three (a b c : Point) :
    shoelaceSum [a, b, c] = crossTerm a b + crossTerm b c + crossTerm c a := by
  unfold shoelaceSum
  rw [show ([a, b, c] : List Point).rotate 1 = [b, c, a] from by
    rw [List.rotate_cons_succ, List.rotate_zero]; rfl]
  simp [List.zip_cons_cons]
  ring

lemma shoelaceSum_four (a b c d : Point) :
    shoelaceSum [a, b, c, d] =
      crossTerm a b + crossTerm b c + crossTerm c d + crossTerm d a := by
  unfold shoelaceSum
  rw [show ([a, b, c, d] : List Point).rotate 1 = [b, c, d, a] from by
    rw [List.rotate_cons_succ, List.rotate_zero]; rfl]
  simp [List.zip_cons_cons]
  ring

lemma shoelaceSum_six (a b c d e f : Point) :
    shoelaceSum [a, b, c, d, e, f] =
      crossTerm a b + crossTerm b c + crossTerm c d + crossTerm d e +
        crossTerm e f + crossTerm f a := by
  unfold shoelaceSum
  rw [show ([a, b, c, d, e, f] : List Point).rotate 1 = [b, c, d, e, f, a] from by
    rw [List.rotate_cons_succ, List.rotate_zero]; rfl]
  simp [List.zip_cons_cons]
  ring

lemma atan2_posx (y x : ℝ) (hx : 0 < x) : atan2 y x = Real.arctan (y / x) := by
  unfold atan2; rw [if_pos hx]

lemma atan2_zero_posy (y : ℝ) (hy : 0 < y) : atan2 y 0 = Real.pi / 2 := by
  unfold atan2
  rw [if_neg (lt_irrefl 0), if_neg (lt_irrefl 0), if_pos hy]

/-- The comparator of the hull sort is negative when the first point has
the strictly smaller polar angle from the anchor. -/
lemma hullCmp_angle_lt (low a b : Point) (ha : a ≠ low) (hb : b ≠ low)
    (h : atan2 (a.lat - low.lat) (a.lon - low.lon) <
      atan2 (b.lat - low.lat) (b.lon - low.lon)) :
    ¬ hullCmp low a b > 0 := by
  simp only [hullCmp]
  rw [if_neg ha, if_neg hb, if_neg (ne_of_lt h)]
  simp only [gt_iff_lt, not_lt, sub_nonpos]
  exact le_of_lt h

/-- The comparator of the hull sort is positive when the first point has
the strictly larger polar angle from the anchor. -/
lemma hullCmp_angle_gt (low a b : Point) (ha : a ≠ low) (hb : b ≠ low)
    (h : atan2 (b.lat - low.lat) (b.lon - low.lon) <
      atan2 (a.lat - low.lat) (a.lon - low.lon)) :
    hullCmp low a b > 0 := by
  simp only [hullCmp]
  rw [if_neg ha, if_neg hb, if_neg (ne_of_gt h)]
  exact sub_pos.mpr h

/-- The anchor compares below every point. -/
lemma hullCmp_anchor (low b : Point) : ¬ hullCmp low low b > 0 := by
  simp only [hullCmp, if_true]
  norm_num

/-- The Graham scan of the area utilities leaves the already-convex,
counterclockwise square (1,1), (1,2), (2,2), (2,1) unchanged. -/
lemma convexHull_unit_square :
    calculateConvexHull [⟨1, 1⟩, ⟨1, 2⟩, ⟨2, 2⟩, ⟨2, 1⟩] =
      [⟨1, 1⟩, ⟨1, 2⟩, ⟨2, 2⟩, ⟨2, 1⟩] := by
  have hlow : List.foldl lowerPoint (⟨1, 1⟩ : Point) [⟨1, 2⟩, ⟨2, 2⟩, ⟨2, 1⟩] = ⟨1, 1⟩ := by
    norm_num [List.foldl, lowerPoint, Point.mk.injEq]
  have hne1 : ((⟨1, 2⟩ : Point) ≠ ⟨1, 1⟩) := by norm_num [Point.mk.injEq]
  have hne2 : ((⟨2, 2⟩ : Point) ≠ ⟨1, 1⟩) := by norm_num [Point.mk.injEq]
  have hne3 : ((⟨2, 1⟩ : Point) ≠ ⟨1, 1⟩) := by norm_num [Point.mk.injEq]
  have a1 : atan2 ((⟨1, 2⟩ : Point).lat - (⟨1, 1⟩ : Point).lat)
      ((⟨1, 2⟩ : Point).lon - (⟨1, 1⟩ : Point).lon) = Real.arctan 0 := by
    show atan2 (1 - 1) (2 - 1) = Real.arctan 0
    rw [atan2_posx _ _ (by norm_num)]
    norm_num
  have a2 : atan2 ((⟨2, 2⟩ : Point).lat - (⟨1, 1⟩ : Point).lat)
      ((⟨2, 2⟩ : Point).lon - (⟨1, 1⟩ : Point).lon) = Real.arctan 1 := by
    show atan2 (2 - 1) (2 - 1) = Real.arctan 1
    rw [atan2_posx _ _ (by norm_num)]
    norm_num
  have a3 : atan2 ((⟨2, 1⟩ : Point).lat - (⟨1, 1⟩ : Point).lat)
      ((⟨2, 1⟩ : Point).lon - (⟨1, 1⟩ : Point).lon) = Real.pi / 2 := by
    show atan2 (2 - 1) (1 - 1) = Real.pi / 2
    rw [show (1 : ℝ) - 1 = 0 from by norm_num, atan2_zero_posy _ (by norm_num)]
  have c23 : ¬ hullCmp ⟨1, 1⟩ (⟨2, 2⟩ : Point) (⟨2, 1⟩ : Point) > 0 :=
    hullCmp_angle_lt _ _ _ hne2 hne3
      (by rw [a2, a3]; exact Real.arctan_lt_pi_div_two 1)
  have c12 : ¬ hullCmp ⟨1, 1⟩ (⟨1, 2⟩ : Point) (⟨2, 2⟩ : Point) > 0 :=
    hullCmp_angle_lt _ _ _ hne1 hne2
      (by rw [a1, a2]; exact Real.arctan_strictMono (by norm_num))
  have c01 : ¬ hullCmp (⟨1, 1⟩ : Point) ⟨1, 1⟩ (⟨1, 2⟩ : Point) > 0 :=
    hullCmp_anchor _ _
  have hsort : sortJS (hullCmp ⟨1, 1⟩) [⟨1, 1⟩, ⟨1, 2⟩, ⟨2, 2⟩, ⟨2, 1⟩] =
      [⟨1, 1⟩, ⟨1, 2⟩, ⟨2, 2⟩, ⟨2, 1⟩] := by
    unfold sortJS
    simp only [List.foldr_cons, List.foldr_nil]
    rw [show insertSorted (hullCmp ⟨1, 1⟩) ⟨2, 1⟩ [] = [⟨2, 1⟩] from rfl]
    rw [show insertSorted (hullCmp ⟨1, 1⟩) ⟨2, 2⟩ [⟨2, 1⟩] =
        [⟨2, 2⟩, ⟨2, 1⟩] from by simp only [insertSorted]; rw [if_neg c23]]
    rw [show insertSorted (hullCmp ⟨1, 1⟩) ⟨1, 2⟩ [⟨2, 2⟩, ⟨2, 1⟩] =
        [⟨1, 2⟩, ⟨2, 2⟩, ⟨2, 1⟩] from by simp only [insertSorted]; rw [if_neg c12]]
    rw [show insertSorted (hullCmp ⟨1, 1⟩) ⟨1, 1⟩ [⟨1, 2⟩, ⟨2, 2⟩, ⟨2, 1⟩] =
        [⟨1, 1⟩, ⟨1, 2⟩, ⟨2, 2⟩, ⟨2, 1⟩] from by simp only [insertSorted]; rw [if_neg c01]]
  have hscan1 : scanPop (⟨2, 2⟩ : Point) [⟨1, 2⟩, ⟨1, 1⟩] = [⟨1, 2⟩, ⟨1, 1⟩] := by
    simp only [scanPop]
    rw [if_neg (not_not_intro (by norm_num [isLeftTurn] :
      isLeftTurn (⟨1, 1⟩ : Point) ⟨1, 2⟩ ⟨2, 2⟩))]
  have hscan2 : scanPop (⟨2, 1⟩ : Point) [⟨2, 2⟩, ⟨1, 2⟩, ⟨1, 1⟩] =
      [⟨2, 2⟩, ⟨1, 2⟩, ⟨1, 1⟩] := by
    simp only [scanPop]
    rw [if_neg (not_not_intro (by norm_num [isLeftTurn] :
      isLeftTurn (⟨1, 2⟩ : Point) ⟨2, 2⟩ ⟨2, 1⟩))]
  simp only [calculateConvexHull]
  rw [if_neg (by norm_num)]
  simp only [hlow, hsort]
  simp only [List.foldl_cons, List.foldl_nil, hscan1, hscan2]
  rfl

/-- The shoelace area of the square (1,1), (1,2), (2,2), (2,1): the raw
signed sum is -2, so the area before conversion is one square degree and
the converted value is 111.32 squared times 100, which is 1239214.24. -/
lemma shoelace_unit_square_value :
    calculateShoelaceArea [⟨1, 1⟩, ⟨1, 2⟩, ⟨2, 2⟩, ⟨2, 1⟩] = 1239214.24 := by
  unfold calculateShoelaceArea
  rw [if_neg (by norm_num)]
  rw [shoelaceSum_four]
  rw [show crossTerm (⟨1, 1⟩ : Point) ⟨1, 2⟩ + crossTerm ⟨1, 2⟩ ⟨2, 2⟩ +
      crossTerm ⟨2, 2⟩ ⟨2, 1⟩ + crossTerm ⟨2, 1⟩ ⟨1, 1⟩ = -2 from by
    norm_num [crossTerm]]
  rw [abs_of_nonpos (by norm_num)]
  norm_num

/-- C2 counterexample: on the boundary (1,1), (1,2), (2,2), (2,1) the
shoelace area in hectares is 1239214.24, not the 1,239,207.6... the spec
states: the value does not lie in [1239207.6, 1239207.7). -/
theorem unit_square_spec_value_refuted :
    calculateShoelaceArea [⟨1, 1⟩, ⟨1, 2⟩, ⟨2, 2⟩, ⟨2, 1⟩] = 1239214.24 ∧
    ¬ (1239207.6 ≤ calculateShoelaceArea [⟨1, 1⟩, ⟨1, 2⟩, ⟨2, 2⟩, ⟨2, 1⟩] ∧
      calculateShoelaceArea [⟨1, 1⟩, ⟨1, 2⟩, ⟨2, 2⟩, ⟨2, 1⟩] < 1239207.7) := by
  refine ⟨shoelace_unit_square_value, ?_⟩
  rw [shoelace_unit_square_value]
  norm_num

/-- C2 amended: on the boundary (1,1), (1,2), (2,2), (2,1) the shoelace
sum yields exactly one square degree before conversion, the converted
area is exactly 111.32 squared times 100 = 1239214.24 hectares, and the
convex-hull algorithm returns the same value on these 4 points. -/
theorem unit_square_exact_area :
    |shoelaceSum [⟨1, 1⟩, ⟨1, 2⟩, ⟨2, 2⟩, ⟨2, 1⟩]| / 2 = 1 ∧
    calculateShoelaceArea [⟨1, 1⟩, ⟨1, 2⟩, ⟨2, 2⟩, ⟨2, 1⟩] = 111.32 ^ 2 * 100 ∧
    calculateShoelaceArea [⟨1, 1⟩, ⟨1, 2⟩, ⟨2, 2⟩, ⟨2, 1⟩] = 1239214.24 ∧
    calculateConvexHullArea [⟨1, 1⟩, ⟨1, 2⟩, ⟨2, 2⟩, ⟨2, 1⟩] =
      calculateShoelaceArea [⟨1, 1⟩, ⟨1, 2⟩, ⟨2, 2⟩, ⟨2, 1⟩] := by
  refine ⟨?_, ?_, shoelace_unit_square_value, ?_⟩
  · rw [shoelaceSum_four]
    rw [show crossTerm (⟨1, 1⟩ : Point) ⟨1, 2⟩ + crossTerm ⟨1, 2⟩ ⟨2, 2⟩ +
        crossTerm ⟨2, 2⟩ ⟨2, 1⟩ + crossTerm ⟨2, 1⟩ ⟨1, 1⟩ = -2 from by
      norm_num [crossTerm]]
    rw [abs_of_nonpos (by norm_num)]
    norm_num
  · rw [shoelace_unit_square_value]
    norm_num
  · unfold calculateConvexHullArea
    rw [convexHull_unit_square]

/-- The Graham scan of the area utilities on the self-overlapping boundary
(0,0), (6,0), (0,6), (1,1), (4,1), (1,4): the hull is the outer triangle
(0,0), (0,6), (6,0). -/
lemma convexHull_nested_triangles :
    calculateConvexHull [⟨0, 0⟩, ⟨6, 0⟩, ⟨0, 6⟩, ⟨1, 1⟩, ⟨4, 1⟩, ⟨1, 4⟩] =
      [⟨0, 0⟩, ⟨0, 6⟩, ⟨6, 0⟩] := by
  have hlow : List.foldl lowerPoint (⟨0, 0⟩ : Point)
      [⟨6, 0⟩, ⟨0, 6⟩, ⟨1, 1⟩, ⟨4, 1⟩, ⟨1, 4⟩] = ⟨0, 0⟩ := by
    norm_num [List.foldl, lowerPoint, Point.mk.injEq]
  have hne1 : ((⟨6, 0⟩ : Point) ≠ ⟨0, 0⟩) := by norm_num [Point.mk.injEq]
  have hne2 : ((⟨0, 6⟩ : Point) ≠ ⟨0, 0⟩) := by norm_num [Point.mk.injEq]
  have hne3 : ((⟨1, 1⟩ : Point) ≠ ⟨0, 0⟩) := by norm_num [Point.mk.injEq]
  have hne4 : ((⟨4, 1⟩ : Point) ≠ ⟨0, 0⟩) := by norm_num [Point.mk.injEq]
  have hne5 : ((⟨1, 4⟩ : Point) ≠ ⟨0, 0⟩) := by norm_num [Point.mk.injEq]
  have a1 : atan2 ((⟨6, 0⟩ : Point).lat - (⟨0, 0⟩ : Point).lat)
      ((⟨6, 0⟩ : Point).lon - (⟨0, 0⟩ : Point).lon) = Real.pi / 2 := by
    show atan2 (6 - 0) (0 - 0) = Real.pi / 2
    rw [show (6 : ℝ) - 0 = 6 from by norm_num, show (0 : ℝ) - 0 = 0 from by norm_num,
      atan2_zero_posy 6 (by norm_num)]
  have a2 : atan2 ((⟨0, 6⟩ : Point).lat - (⟨0, 0⟩ : Point).lat)
      ((⟨0, 6⟩ : Point).lon - (⟨0, 0⟩ : Point).lon) = Real.arctan 0 := by
    show atan2 (0 - 0) (6 - 0) = Real.arctan 0
    rw [atan2_posx _ _ (by norm_num)]
    norm_num
  have a3 : atan2 ((⟨1, 1⟩ : Point).lat - (⟨0, 0⟩ : Point).lat)
      ((⟨1, 1⟩ : Point).lon - (⟨0, 0⟩ : Point).lon) = Real.arctan 1 := by
    show atan2 (1 - 0) (1 - 0) = Real.arctan 1
    rw [atan2_posx _ _ (by norm_num)]
    norm_num
  have a4 : atan2 ((⟨4, 1⟩ : Point).lat - (⟨0, 0⟩ : Point).lat)
      ((⟨4, 1⟩ : Point).lon - (⟨0, 0⟩ : Point).lon) = Real.arctan 4 := by
    show atan2 (4 - 0) (1 - 0) = Real.arctan 4
    rw [atan2_posx _ _ (by norm_num)]
    norm_num
  have a5 : atan2 ((⟨1, 4⟩ : Point).lat - (⟨0, 0⟩ : Point).lat)
      ((⟨1, 4⟩ : Point).lon - (⟨0, 0⟩ : Point).lon) = Real.arctan (1 / 4) := by
    show atan2 (1 - 0) (4 - 0) = Real.arctan (1 / 4)
    rw [atan2_posx _ _ (by norm_num)]
    norm_num
  have g45 : hullCmp ⟨0, 0⟩ (⟨4, 1⟩ : Point) (⟨1, 4⟩ : Point) > 0 :=
    hullCmp_angle_gt _ _ _ hne4 hne5
      (by rw [a4, a5]; exact Real.arctan_strictMono (by norm_num))
  have g35 : hullCmp ⟨0, 0⟩ (⟨1, 1⟩ : Point) (⟨1, 4⟩ : Point) > 0 :=
    hullCmp_angle_gt _ _ _ hne3 hne5
      (by rw [a3, a5]; exact Real.arctan_strictMono (by norm_num))
  have n34 : ¬ hullCmp ⟨0, 0⟩ (⟨1, 1⟩ : Point) (⟨4, 1⟩ : Point) > 0 :=
    hullCmp_angle_lt _ _ _ hne3 hne4
      (by rw [a3, a4]; exact Real.arctan_strictMono (by norm_num))
  have n25 : ¬ hullCmp ⟨0, 0⟩ (⟨0, 6⟩ : Point) (⟨1, 4⟩ : Point) > 0 :=
    hullCmp_angle_lt _ _ _ hne2 hne5
      (by rw [a2, a5]; exact Real.arctan_strictMono (by norm_num))
  have g12 : hullCmp ⟨0, 0⟩ (⟨6, 0⟩ : Point) (⟨0, 6⟩ : Point) > 0 :=
    hullCmp_angle_gt _ _ _ hne1 hne2
      (by rw [a1, a2]; exact Real.arctan_lt_pi_div_two 0)
  have g15 : hullCmp ⟨0, 0⟩ (⟨6, 0⟩ : Point) (⟨1, 4⟩ : Point) > 0 :=
    hullCmp_angle_gt _ _ _ hne1 hne5
      (by rw [a1, a5]; exact Real.arctan_lt_pi_div_two (1 / 4))
  have g13 : hullCmp ⟨0, 0⟩ (⟨6, 0⟩ : Point) (⟨1, 1⟩ : Point) > 0 :=
    hullCmp_angle_gt _ _ _ hne1 hne3
      (by rw [a1, a3]; exact Real.arctan_lt_pi_div_two 1)
  have g14 : hullCmp ⟨0, 0⟩ (⟨6, 0⟩ : Point) (⟨4, 1⟩ : Point) > 0 :=
    hullCmp_angle_gt _ _ _ hne1 hne4
      (by rw [a1, a4]; exact Real.arctan_lt_pi_div_two 4)
  have n02 : ¬ hullCmp (⟨0, 0⟩ : Point) ⟨0, 0⟩ (⟨0, 6⟩ : Point) > 0 :=
    hullCmp_anchor _ _
  have i4 : insertSorted (hullCmp ⟨0, 0⟩) ⟨4, 1⟩ [⟨1, 4⟩] = [⟨1, 4⟩, ⟨4, 1⟩] := by
    simp only [insertSorted]
    rw [if_pos g45]
  have i3 : insertSorted (hullCmp ⟨0, 0⟩) ⟨1, 1⟩ [⟨1, 4⟩, ⟨4, 1⟩] =
      [⟨1, 4⟩, ⟨1, 1⟩, ⟨4, 1⟩] := by
    simp only [insertSorted]
    rw [if_pos g35, if_neg n34]
  have i2 : insertSorted (hullCmp ⟨0, 0⟩) ⟨0, 6⟩ [⟨1, 4⟩, ⟨1, 1⟩, ⟨4, 1⟩] =
      [⟨0, 6⟩, ⟨1, 4⟩, ⟨1, 1⟩, ⟨4, 1⟩] := by
    simp only [insertSorted]
    rw [if_neg n25]
  have i1 : insertSorted (hullCmp ⟨0, 0⟩) ⟨6, 0⟩ [⟨0, 6⟩, ⟨1, 4⟩, ⟨1, 1⟩, ⟨4, 1⟩] =
      [⟨0, 6⟩, ⟨1, 4⟩, ⟨1, 1⟩, ⟨4, 1⟩, ⟨6, 0⟩] := by
    simp only [insertSorted]
    rw [if_pos g12, if_pos g15, if_pos g13, if_pos g14]
  have i0 : insertSorted (hullCmp ⟨0, 0⟩) ⟨0, 0⟩ [⟨0, 6⟩, ⟨1, 4⟩, ⟨1, 1⟩, ⟨4, 1⟩, ⟨6, 0⟩] =
      [⟨0, 0⟩, ⟨0, 6⟩, ⟨1, 4⟩, ⟨1, 1⟩, ⟨4, 1⟩, ⟨6, 0⟩] := by
    simp only [insertSorted]
    rw [if_neg n02]
  have hsort : sortJS (hullCmp ⟨0, 0⟩) [⟨0, 0⟩, ⟨6, 0⟩, ⟨0, 6⟩, ⟨1, 1⟩, ⟨4, 1⟩, ⟨1, 4⟩] =
      [⟨0, 0⟩, ⟨0, 6⟩, ⟨1, 4⟩, ⟨1, 1⟩, ⟨4, 1⟩, ⟨6, 0⟩] := by
    unfold sortJS
    simp only [List.foldr_cons, List.foldr_nil]
    rw [show insertSorted (hullCmp ⟨0, 0⟩) ⟨1, 4⟩ [] = [⟨1, 4⟩] from rfl,
      i4, i3, i2, i1, i0]
  have s5 : scanPop (⟨1, 4⟩ : Point) [⟨0, 6⟩, ⟨0, 0⟩] = [⟨0, 6⟩, ⟨0, 0⟩] := by
    simp only [scanPop]
    rw [if_neg (not_not_intro (by norm_num [isLeftTurn] :
      isLeftTurn (⟨0, 0⟩ : Point) ⟨0, 6⟩ ⟨1, 4⟩))]
  have s3 : scanPop (⟨1, 1⟩ : Point) [⟨1, 4⟩, ⟨0, 6⟩, ⟨0, 0⟩] =
      [⟨1, 4⟩, ⟨0, 6⟩, ⟨0, 0⟩] := by
    simp only [scanPop]
    rw [if_neg (not_not_intro (by norm_num [isLeftTurn] :
      isLeftTurn (⟨0, 6⟩ : Point) ⟨1, 4⟩ ⟨1, 1⟩))]
  have s4 : scanPop (⟨4, 1⟩ : Point) [⟨1, 1⟩, ⟨1, 4⟩, ⟨0, 6⟩, ⟨0, 0⟩] =
      [⟨0, 6⟩, ⟨0, 0⟩] := by
    simp only [scanPop]
    rw [if_pos (by norm_num [isLeftTurn] :
        ¬ isLeftTurn (⟨1, 4⟩ : Point) ⟨1, 1⟩ ⟨4, 1⟩),
      if_pos (by norm_num [isLeftTurn] :
        ¬ isLeftTurn (⟨0, 6⟩ : Point) ⟨1, 4⟩ ⟨4, 1⟩),
      if_neg (not_not_intro (by norm_num [isLeftTurn] :
        isLeftTurn (⟨0, 0⟩ : Point) ⟨0, 6⟩ ⟨4, 1⟩))]
  have s1 : scanPop (⟨6, 0⟩ : Point) [⟨4, 1⟩, ⟨0, 6⟩, ⟨0, 0⟩] = [⟨0, 6⟩, ⟨0, 0⟩] := by
    simp only [scanPop]
    rw [if_pos (by norm_num [isLeftTurn] :
        ¬ isLeftTurn (⟨0, 6⟩ : Point) ⟨4, 1⟩ ⟨6, 0⟩),
      if_neg (not_not_intro (by norm_num [isLeftTurn] :
        isLeftTurn (⟨0, 0⟩ : Point) ⟨0, 6⟩ ⟨6, 0⟩))]
  simp only [calculateConvexHull]
  rw [if_neg (by norm_num)]
  simp only [hlow, hsort]
  simp only [List.foldl_cons, List.foldl_nil, s5, s3, s4, s1]
  rfl

/-- The convex-hull area of the self-overlapping boundary: the hull is the
triangle (0,0), (0,6), (6,0) of raw area 18 square degrees. -/
lemma hull_area_nested_triangles :
    calculateConvexHullArea [⟨0, 0⟩, ⟨6, 0⟩, ⟨0, 6⟩, ⟨1, 1⟩, ⟨4, 1⟩, ⟨1, 4⟩] =
      22305856.32 := by
  unfold calculateConvexHullArea
  rw [convexHull_nested_triangles]
  unfold calculateShoelaceArea
  rw [if_neg (by norm_num), shoelaceSum_three,
    show crossTerm (⟨0, 0⟩ : Point) ⟨0, 6⟩ + crossTerm ⟨0, 6⟩ ⟨6, 0⟩ +
      crossTerm ⟨6, 0⟩ ⟨0, 0⟩ = -36 from by norm_num [crossTerm],
    abs_of_nonpos (by norm_num)]
  norm_num

/-- The raw shoelace area of the self-overlapping boundary is 21 square
degrees: the inner triangle region is traversed with winding number two. -/
lemma shoelace_area_nested_triangles :
    calculateShoelaceArea [⟨0, 0⟩, ⟨6, 0⟩, ⟨0, 6⟩, ⟨1, 1⟩, ⟨4, 1⟩, ⟨1, 4⟩] =
      26023499.04 := by
  unfold calculateShoelaceArea
  rw [if_neg (by norm_num), shoelaceSum_six,
    show crossTerm (⟨0, 0⟩ : Point) ⟨6, 0⟩ + crossTerm ⟨6, 0⟩ ⟨0, 6⟩ +
      crossTerm ⟨0, 6⟩ ⟨1, 1⟩ + crossTerm ⟨1, 1⟩ ⟨4, 1⟩ + crossTerm ⟨4, 1⟩ ⟨1, 4⟩ +
      crossTerm ⟨1, 4⟩ ⟨0, 0⟩ = 42 from by norm_num [crossTerm],
    abs_of_nonneg (by norm_num)]
  norm_num

/-- C3 counterexample: the boundary (0,0), (6,0), (0,6), (1,1), (4,1),
(1,4) has at least 3 points, yet its convex-hull area (22305856.32
hectares, hull raw area 18 square degrees) is strictly below its shoelace
area (26023499.04 hectares, raw area 21 square degrees): the boundary
traverses the inner triangle a second time, which the shoelace sum counts
twice but the hull cannot contain. -/
theorem hull_ge_shoelace_refuted :
    3 ≤ ([⟨0, 0⟩, ⟨6, 0⟩, ⟨0, 6⟩, ⟨1, 1⟩, ⟨4, 1⟩, ⟨1, 4⟩] : List Point).length ∧
    calculateConvexHullArea [⟨0, 0⟩, ⟨6, 0⟩, ⟨0, 6⟩, ⟨1, 1⟩, ⟨4, 1⟩, ⟨1, 4⟩] <
      calculateShoelaceArea [⟨0, 0⟩, ⟨6, 0⟩, ⟨0, 6⟩, ⟨1, 1⟩, ⟨4, 1⟩, ⟨1, 4⟩] := by
  refine ⟨by norm_num, ?_⟩
  rw [hull_area_nested_triangles, shoelace_area_nested_triangles]
  norm_num

/-- C3 amended: the hull routine returns a boundary of at most 3 points
unchanged, so on every 3-point boundary the convex-hull area equals the
shoelace area (and hence is at least it); for longer boundaries the
claimed inequality can fail on self-overlapping input. -/
theorem hull_area_eq_shoelace_of_length_three (l : List Point) (h : l.length = 3) :
    calculateConvexHullArea l = calculateShoelaceArea l := by
  unfold calculateConvexHullArea calculateConvexHull
  rw [if_pos (by omega)]

/-- C3 amended witness: a concrete 3-point boundary. -/
theorem hull_area_eq_shoelace_of_length_three_witness :
    calculateConvexHullArea [⟨0, 0⟩, ⟨1, 0⟩, ⟨0, 1⟩] =
      calculateShoelaceArea [⟨0, 0⟩, ⟨1, 0⟩, ⟨0, 1⟩] :=
  hull_area_eq_shoelace_of_length_three [⟨0, 0⟩, ⟨1, 0⟩, ⟨0, 1⟩] (by decide)

/-- C8: the shoelace area is invariant under every cyclic rotation of the
boundary and under full reversal: rotation leaves the signed sum unchanged,
reversal negates it, and the algorithm takes the absolute value. -/
theorem shoelace_rotation_reversal_invariant (l : List Point) (k : ℕ) :
    calculateShoelaceArea (l.rotate k) = calculateShoelaceArea l ∧
    calculateShoelaceArea l.reverse = calculateShoelaceArea l := by
  constructor
  · unfold calculateShoelaceArea
    rw [List.length_rotate, shoelaceSum_rotate]
  · unfold calculateShoelaceArea
    rw [List.length_reverse, shoelaceSum_reverse, abs_neg]

end GpsArea
